import Mathlib

/-!
# Verification of `specialized-pipeline/docai_utils.py`

A shallow embedding of the document-batching pipeline in
`src/specialized-pipeline/docai_utils.py`, together with theorems settling
the specification claims about it.

Modelling conventions:
* The storage and Document AI services are external collaborators; listings
  are passed in as explicit lists, and the fallible client calls (submit,
  wait, copy, delete, JSON decode, proto parse) are modelled with explicit
  outcome parameters (`Except`, `Bool` oracles).
* The constants imported from `consts.py` (`BATCH_MAX_FILES`,
  `ACCEPTED_MIME_TYPES`, `TIMEOUT`, bucket names, ...) are not part of the
  source tree; every function takes them as parameters.
* Python exceptions are modelled as `Except` errors that propagate exactly
  where no enclosing `try` catches them in the source.
-/

/-- A storage object as produced by `storage_client.list_blobs`:
a name (key) and a content type. -/
structure Blob where
  name : String
  contentType : String
deriving DecidableEq, Repr

/-- `documentai.GcsDocument`: a fully qualified URI plus mime type,
as built at lines 71-76 of the source. -/
structure GcsDocument where
  gcs_uri : String
  mime_type : String
deriving DecidableEq, Repr

/-- The document reference built for an accepted blob
(`gcs_uri=f"gs://{input_bucket}/{blob.name}", mime_type=blob.content_type`). -/
def mkGcsDocument (input_bucket : String) (blob : Blob) : GcsDocument :=
  { gcs_uri := "gs://" ++ input_bucket ++ "/" ++ blob.name
    mime_type := blob.contentType }

/-- The `for blob in blob_list` loop of `create_batches` (lines 61-78),
restricted to the documents that survived the mime-type filter: `batches`
and `batch` are the two mutable accumulators; a batch is pushed when a new
document arrives while `len(batch) == batch_size`, and the final
`batches.append(batch)` is the `[]` case. -/
def create_batches_go (batch_size : Nat) :
    List GcsDocument → List (List GcsDocument) → List GcsDocument →
    List (List GcsDocument)
  | [], batches, batch => batches ++ [batch]
  | d :: rest, batches, batch =>
    if batch.length = batch_size then
      create_batches_go batch_size rest (batches ++ [batch]) [d]
    else
      create_batches_go batch_size rest batches (batch ++ [d])

/-- The mime-type filter of lines 63-65: blobs whose content type is not in
`ACCEPTED_MIME_TYPES` are skipped (with a printed diagnostic). -/
def acceptedBlobs (accepted : List String) (blob_list : List Blob) : List Blob :=
  blob_list.filter (fun blob => blob.contentType ∈ accepted)

/-- `create_batches` (lines 44-80).  `accepted` stands for
`ACCEPTED_MIME_TYPES` and `batchMaxFiles` for `BATCH_MAX_FILES`, both
imported from `consts.py`; `blob_list` is the result of
`storage_client.list_blobs(input_bucket, prefix=input_prefix)`.  The
`ValueError` raised when `batch_size > BATCH_MAX_FILES` is the `.error`
case, and it is raised before the listing is consulted. -/
def create_batches (accepted : List String) (batchMaxFiles : Nat)
    (input_bucket : String) (blob_list : List Blob) (batch_size : Nat) :
    Except String (List (List GcsDocument)) :=
  if batch_size > batchMaxFiles then
    .error ("Batch size must be less than " ++ toString batchMaxFiles ++
      ". You provided " ++ toString batch_size)
  else
    .ok (create_batches_go batch_size
      ((acceptedBlobs accepted blob_list).map (mkGcsDocument input_bucket)) [] [])

/-! ## Loop invariants for `create_batches_go` -/

/-- Concatenating the produced batches recovers the batch accumulators
followed by the remaining documents, in order. -/
theorem create_batches_go_join (batch_size : Nat) (docs : List GcsDocument)
    (batches : List (List GcsDocument)) (batch : List GcsDocument) :
    (create_batches_go batch_size docs batches batch).flatten =
      batches.flatten ++ batch ++ docs := by
  induction docs generalizing batches batch with
  | nil => simp [create_batches_go]
  | cons d rest ih =>
    by_cases h : batch.length = batch_size
    · simp [create_batches_go, h, ih]
    · simp [create_batches_go, h, ih]

/-- Number of batch closes performed by the loop, as a function of the
number of remaining documents and the size of the open batch. -/
def numCloses (batch_size : Nat) : Nat → Nat → Nat
  | 0, _ => 0
  | n + 1, k =>
    if k = batch_size then 1 + numCloses batch_size n 1
    else numCloses batch_size n (k + 1)

theorem create_batches_go_length (batch_size : Nat) (docs : List GcsDocument)
    (batches : List (List GcsDocument)) (batch : List GcsDocument) :
    (create_batches_go batch_size docs batches batch).length =
      batches.length + 1 + numCloses batch_size docs.length batch.length := by
  induction docs generalizing batches batch with
  | nil => simp [create_batches_go, numCloses]
  | cons d rest ih =>
    by_cases h : batch.length = batch_size
    · simp [create_batches_go, h, ih, numCloses]
      omega
    · simp [create_batches_go, h, ih, numCloses]

/-- Closed form for `numCloses`: with a positive capacity and an open batch
within capacity, the loop closes `(n + k - 1) / batch_size` batches
(truncated subtraction). -/
theorem numCloses_eq (batch_size : Nat) (hB : 1 ≤ batch_size) :
    ∀ n k, k ≤ batch_size →
      numCloses batch_size n k = (n + k - 1) / batch_size := by
  intro n
  induction n with
  | zero =>
    intro k hk
    simp only [numCloses]
    exact (Nat.div_eq_of_lt (by omega)).symm
  | succ n ih =>
    intro k hk
    by_cases h : k = batch_size
    · subst h
      simp only [numCloses, if_pos rfl]
      rw [ih 1 hB]
      have h1 : n + 1 - 1 = n := by omega
      have h2 : n + 1 + k - 1 = n + k := by omega
      rw [h1, h2, Nat.add_div_right _ hB]
      exact Nat.add_comm 1 (n / k)
    · simp only [numCloses, if_neg h]
      rw [ih (k + 1) (by omega)]
      congr 1
      omega

/-- Shape invariant: starting from full closed batches and an open batch
within capacity, the loop returns a list of full batches followed by one
final batch of size at most the capacity. -/
theorem create_batches_go_shape (batch_size : Nat) (hB : 1 ≤ batch_size)
    (docs : List GcsDocument) (batches : List (List GcsDocument))
    (batch : List GcsDocument)
    (hbatches : ∀ b ∈ batches, b.length = batch_size)
    (hbatch : batch.length ≤ batch_size) :
    ∃ done final,
      create_batches_go batch_size docs batches batch = done ++ [final] ∧
      (∀ b ∈ done, b.length = batch_size) ∧ final.length ≤ batch_size := by
  induction docs generalizing batches batch with
  | nil =>
    exact ⟨batches, batch, by simp [create_batches_go], hbatches, hbatch⟩
  | cons d rest ih =>
    by_cases h : batch.length = batch_size
    · simp only [create_batches_go, if_pos h]
      apply ih
      · intro b hb
        rcases List.mem_append.mp hb with hb | hb
        · exact hbatches b hb
        · simp only [List.mem_singleton] at hb
          simpa [hb] using h
      · simpa using hB
    · simp only [create_batches_go, if_neg h]
      apply ih
      · exact hbatches
      · simp only [List.length_append, List.length_singleton]
        omega

/-- When at least one document remains, the final batch produced by the
loop is nonempty. -/
theorem create_batches_go_final_ne_nil (batch_size : Nat) (d : GcsDocument)
    (rest : List GcsDocument) (batches : List (List GcsDocument))
    (batch : List GcsDocument) :
    ∃ done final,
      create_batches_go batch_size (d :: rest) batches batch = done ++ [final] ∧
      final ≠ [] := by
  induction rest generalizing d batches batch with
  | nil =>
    by_cases h : batch.length = batch_size
    · exact ⟨batches ++ [batch], [d], by simp [create_batches_go, h], by simp⟩
    · exact ⟨batches, batch ++ [d], by simp [create_batches_go, h], by simp⟩
  | cons e es ih =>
    by_cases h : batch.length = batch_size
    · simpa only [create_batches_go, if_pos h] using ih e _ _
    · simpa only [create_batches_go, if_neg h] using ih e _ _

/-- Arithmetic bridge: one final batch plus `(N - 1) / B` closed batches is
`max 1 ⌈N / B⌉` batches. -/
theorem one_add_pred_div (B N : Nat) (hB : 1 ≤ B) :
    1 + (N - 1) / B = max 1 ((N + B - 1) / B) := by
  rcases Nat.eq_zero_or_pos N with h0 | h1
  · subst h0
    rw [Nat.zero_add, Nat.zero_sub, Nat.zero_div,
      Nat.div_eq_of_lt (show B - 1 < B by omega)]
    decide
  · have h2 : N + B - 1 = (N - 1) + B := by omega
    rw [h2, Nat.add_div_right _ hB, Nat.max_eq_right (Nat.le_add_left 1 _)]
    exact Nat.add_comm 1 _

/-! ## Claims about the Batch Partitioner (C1, C2, C8) -/

/-- **C1** (counterexample).  The claim predicts that a listing with `N = 1`
accepted object and batch size `B = 2` yields `⌈1/2⌉ = 1` batch plus one
trailing empty batch, i.e. 2 batches.  The code yields a single nonempty
batch: the trailing `batches.append(batch)` only appends an *empty* batch
when no object was accepted at all. -/
theorem C1_counterexample :
    create_batches ["application/pdf"] 50 "bkt" [⟨"a", "application/pdf"⟩] 2 =
      .ok [[mkGcsDocument "bkt" ⟨"a", "application/pdf"⟩]] ∧
    (1 + 2 - 1) / 2 + 1 = 2 ∧
    ¬ (∃ bs,
        create_batches ["application/pdf"] 50 "bkt" [⟨"a", "application/pdf"⟩] 2 =
          .ok bs ∧ bs.length = (1 + 2 - 1) / 2 + 1) := by
  refine ⟨rfl, rfl, ?_⟩
  rintro ⟨bs, hbs, hlen⟩
  have h1 : (Except.ok [[mkGcsDocument "bkt" ⟨"a", "application/pdf"⟩]] :
      Except String (List (List GcsDocument))) = .ok bs := hbs
  injection h1 with h2
  rw [← h2] at hlen
  exact absurd hlen (by decide)

/-- **C1** (amended).  For a listing whose accepted objects number `N` and a
valid batch size `1 ≤ B ≤ BATCH_MAX_FILES`, `create_batches` succeeds and
produces `max 1 ⌈N/B⌉` batches; the concatenation of the batches is exactly
the accepted objects in listing order (so each appears exactly once); the
trailing empty batch exists precisely when `N = 0` (in which case the result
is `[[]]`), and when `N ≠ 0` no batch is empty. -/
theorem C1_create_batches_partition (accepted : List String)
    (batchMaxFiles : Nat) (input_bucket : String) (blob_list : List Blob)
    (batch_size : Nat) (hB : 1 ≤ batch_size)
    (hmax : batch_size ≤ batchMaxFiles) :
    ∃ bs,
      create_batches accepted batchMaxFiles input_bucket blob_list batch_size =
        .ok bs ∧
      bs.length =
        max 1 (((acceptedBlobs accepted blob_list).length + batch_size - 1) /
          batch_size) ∧
      bs.flatten =
        (acceptedBlobs accepted blob_list).map (mkGcsDocument input_bucket) ∧
      ((acceptedBlobs accepted blob_list).length = 0 → bs = [[]]) ∧
      ((acceptedBlobs accepted blob_list).length ≠ 0 → ∀ b ∈ bs, b ≠ []) := by
  refine ⟨create_batches_go batch_size
    ((acceptedBlobs accepted blob_list).map (mkGcsDocument input_bucket)) [] [],
    ?_, ?_, ?_, ?_, ?_⟩
  · unfold create_batches
    rw [if_neg (Nat.not_lt.mpr hmax)]
  · rw [create_batches_go_length]
    rw [numCloses_eq batch_size hB _ _ (by simp)]
    simp only [List.length_nil, List.length_map, List.length_singleton,
      Nat.zero_add, Nat.add_zero]
    exact one_add_pred_div batch_size _ hB
  · rw [create_batches_go_join]
    simp
  · intro h
    rw [List.length_eq_zero] at h
    simp [h, create_batches_go]
  · intro h
    have hne : (acceptedBlobs accepted blob_list).map (mkGcsDocument input_bucket) ≠ [] := by
      simp only [ne_eq, List.map_eq_nil_iff]
      intro hc
      exact h (by simp [hc])
    obtain ⟨d, rest, hd⟩ := List.exists_cons_of_ne_nil hne
    rw [hd]
    obtain ⟨done1, f1, he1, hf1⟩ :=
      create_batches_go_final_ne_nil batch_size d rest [] []
    obtain ⟨done2, f2, he2, hall2, hle2⟩ :=
      create_batches_go_shape batch_size hB (d :: rest) [] [] (by simp)
        (by simp)
    obtain ⟨hdd, hff⟩ := List.append_inj' (he1.symm.trans he2) (by simp)
    intro b hb
    rw [he2] at hb
    rcases List.mem_append.mp hb with hb | hb
    · have := hall2 b hb
      intro hc
      rw [hc] at this
      simp at this
      omega
    · simp only [List.mem_singleton] at hb
      rw [hb]
      have hf : f1 = f2 := by simpa using hff
      exact hf ▸ hf1

/-- **C1** (witness): a listing of four objects, three accepted, batch size
2: two batches, `[[a, c], [d]]`, concatenating to the accepted objects in
order. -/
theorem C1_create_batches_partition_witness :
    ∃ bs,
      create_batches ["application/pdf"] 50 "bkt"
        [⟨"a", "application/pdf"⟩, ⟨"b", "text/csv"⟩,
         ⟨"c", "application/pdf"⟩, ⟨"d", "application/pdf"⟩] 2 = .ok bs ∧
      bs.length =
        max 1 (((acceptedBlobs ["application/pdf"]
          [⟨"a", "application/pdf"⟩, ⟨"b", "text/csv"⟩,
           ⟨"c", "application/pdf"⟩, ⟨"d", "application/pdf"⟩]).length + 2 - 1) / 2) ∧
      bs.flatten =
        (acceptedBlobs ["application/pdf"]
          [⟨"a", "application/pdf"⟩, ⟨"b", "text/csv"⟩,
           ⟨"c", "application/pdf"⟩, ⟨"d", "application/pdf"⟩]).map
          (mkGcsDocument "bkt") ∧
      ((acceptedBlobs ["application/pdf"]
          [⟨"a", "application/pdf"⟩, ⟨"b", "text/csv"⟩,
           ⟨"c", "application/pdf"⟩, ⟨"d", "application/pdf"⟩]).length = 0 →
        bs = [[]]) ∧
      ((acceptedBlobs ["application/pdf"]
          [⟨"a", "application/pdf"⟩, ⟨"b", "text/csv"⟩,
           ⟨"c", "application/pdf"⟩, ⟨"d", "application/pdf"⟩]).length ≠ 0 →
        ∀ b ∈ bs, b ≠ []) :=
  C1_create_batches_partition ["application/pdf"] 50 "bkt"
    [⟨"a", "application/pdf"⟩, ⟨"b", "text/csv"⟩,
     ⟨"c", "application/pdf"⟩, ⟨"d", "application/pdf"⟩] 2
    (by decide) (by decide)

/-- **C2**.  Requesting `batch_size > BATCH_MAX_FILES` fails with the
`ValueError` before the storage listing is consulted (the result is the
same error for every listing); requesting `batch_size ≤ BATCH_MAX_FILES`
(including equality) raises no error, and the size is not clamped: the
partition is computed with `batch_size` itself, independently of the
ceiling. -/
theorem C2_batch_size_validation (accepted : List String)
    (batchMaxFiles : Nat) (input_bucket : String)
    (blob_list other_listing : List Blob) (batch_size : Nat) :
    (batch_size > batchMaxFiles →
      create_batches accepted batchMaxFiles input_bucket blob_list batch_size =
        .error ("Batch size must be less than " ++ toString batchMaxFiles ++
          ". You provided " ++ toString batch_size) ∧
      create_batches accepted batchMaxFiles input_bucket blob_list batch_size =
        create_batches accepted batchMaxFiles input_bucket other_listing
          batch_size) ∧
    (batch_size ≤ batchMaxFiles →
      create_batches accepted batchMaxFiles input_bucket blob_list batch_size =
        .ok (create_batches_go batch_size
          ((acceptedBlobs accepted blob_list).map
            (mkGcsDocument input_bucket)) [] []) ∧
      ∀ otherCeiling, batch_size ≤ otherCeiling →
        create_batches accepted batchMaxFiles input_bucket blob_list
            batch_size =
          create_batches accepted otherCeiling input_bucket blob_list
            batch_size) := by
  constructor
  · intro h
    constructor
    · unfold create_batches
      rw [if_pos h]
    · unfold create_batches
      rw [if_pos h, if_pos h]
  · intro h
    constructor
    · unfold create_batches
      rw [if_neg (Nat.not_lt.mpr h)]
    · intro otherCeiling hoc
      unfold create_batches
      rw [if_neg (Nat.not_lt.mpr h), if_neg (Nat.not_lt.mpr hoc)]

/-- **C2** (witness): with ceiling 50, batch size 51 fails with the
`ValueError`, and batch size 50 (equal to the ceiling) succeeds unclamped. -/
theorem C2_batch_size_validation_witness :
    create_batches ["application/pdf"] 50 "bkt" [⟨"a", "application/pdf"⟩]
        51 =
      .error ("Batch size must be less than " ++ toString 50 ++
        ". You provided " ++ toString 51) ∧
    create_batches ["application/pdf"] 50 "bkt" [⟨"a", "application/pdf"⟩]
        50 =
      .ok (create_batches_go 50
        ((acceptedBlobs ["application/pdf"] [⟨"a", "application/pdf"⟩]).map
          (mkGcsDocument "bkt")) [] []) :=
  ⟨((C2_batch_size_validation ["application/pdf"] 50 "bkt"
      [⟨"a", "application/pdf"⟩] [] 51).1 (by decide)).1,
   ((C2_batch_size_validation ["application/pdf"] 50 "bkt"
      [⟨"a", "application/pdf"⟩] [] 50).2 (by decide)).1⟩

/-- **C8**.  For a valid batch size, every produced batch has size at most
`batch_size`; every batch except the final one has size exactly
`batch_size` (so only the final batch may be smaller or empty); and no
batch contains a document whose mime type is outside the accepted set. -/
theorem C8_batch_invariants (accepted : List String) (batchMaxFiles : Nat)
    (input_bucket : String) (blob_list : List Blob) (batch_size : Nat)
    (hB : 1 ≤ batch_size) (hmax : batch_size ≤ batchMaxFiles) :
    ∃ bs,
      create_batches accepted batchMaxFiles input_bucket blob_list batch_size =
        .ok bs ∧
      (∀ b ∈ bs, b.length ≤ batch_size) ∧
      (∃ done final, bs = done ++ [final] ∧
        ∀ b ∈ done, b.length = batch_size) ∧
      (∀ b ∈ bs, ∀ d ∈ b, d.mime_type ∈ accepted) := by
  obtain ⟨done, final, heq, hdone, hfinal⟩ :=
    create_batches_go_shape batch_size hB
      ((acceptedBlobs accepted blob_list).map (mkGcsDocument input_bucket))
      [] [] (by simp) (by simp)
  refine ⟨create_batches_go batch_size
    ((acceptedBlobs accepted blob_list).map (mkGcsDocument input_bucket)) [] [],
    ?_, ?_, ⟨done, final, heq, hdone⟩, ?_⟩
  · unfold create_batches
    rw [if_neg (Nat.not_lt.mpr hmax)]
  · intro b hb
    rw [heq] at hb
    rcases List.mem_append.mp hb with hb | hb
    · exact (hdone b hb).le
    · simp only [List.mem_singleton] at hb
      rw [hb]
      exact hfinal
  · intro b hb d hd
    have hfl : d ∈ (create_batches_go batch_size
        ((acceptedBlobs accepted blob_list).map (mkGcsDocument input_bucket))
        [] []).flatten :=
      List.mem_flatten.mpr ⟨b, hb, hd⟩
    rw [create_batches_go_join] at hfl
    simp only [List.flatten_nil, List.nil_append] at hfl
    obtain ⟨blob, hblob, hdb⟩ := List.mem_map.mp hfl
    have hmem := (List.mem_filter.mp hblob).2
    rw [← hdb]
    simpa [mkGcsDocument] using hmem

/-- **C8** (witness): three accepted objects out of four, batch size 2:
batches `[[a, c], [d]]` satisfy all three invariants. -/
theorem C8_batch_invariants_witness :
    ∃ bs,
      create_batches ["application/pdf"] 50 "bkt"
        [⟨"a", "application/pdf"⟩, ⟨"b", "text/csv"⟩,
         ⟨"c", "application/pdf"⟩, ⟨"d", "application/pdf"⟩] 2 = .ok bs ∧
      (∀ b ∈ bs, b.length ≤ 2) ∧
      (∃ done final, bs = done ++ [final] ∧ ∀ b ∈ done, b.length = 2) ∧
      (∀ b ∈ bs, ∀ d ∈ b, d.mime_type ∈ ["application/pdf"]) :=
  C8_batch_invariants ["application/pdf"] 50 "bkt"
    [⟨"a", "application/pdf"⟩, ⟨"b", "text/csv"⟩,
     ⟨"c", "application/pdf"⟩, ⟨"d", "application/pdf"⟩] 2
    (by decide) (by decide)

/-! ## Entity Flattener (`extract_document_entities`, lines 22-41) -/

/-- `entity.normalized_value`: only its `text` field is consulted. -/
structure NormalizedValue where
  text : String
deriving DecidableEq, Repr

/-- A `documentai.Document.Entity`.  The proto optional message field
`normalized_value` (read with `getattr(entity, "normalized_value", None)`
and then tested for truthiness) is modelled as an `Option`, per the spec's
explicit optional-field semantics. -/
structure Entity where
  type_ : String
  mention_text : String
  normalized_value : Option NormalizedValue
deriving DecidableEq, Repr

/-- A `documentai.Document`: only its entity list is consulted by the
flattener. -/
structure Document where
  entities : List Entity
deriving DecidableEq, Repr

/-- Python's `str.replace("/", "_")`: the pattern is a single character, so
the replacement is the character-wise map sending `/` to `_`. -/
def replaceSlash (s : String) : String :=
  ⟨s.data.map (fun c => if c = '/' then '_' else c)⟩

/-- Python `dict` assignment `d.update({k: v})` on an insertion-ordered
association list with unique keys: replace the value in place when the key
is present, otherwise append the pair at the end. -/
def pyDictUpdate : List (String × String) → String → String →
    List (String × String)
  | [], k, v => [(k, v)]
  | p :: rest, k, v =>
    if p.1 == k then (k, v) :: rest
    else p :: pyDictUpdate rest k v

/-- Key lookup in the association-list model of a Python `dict`. -/
def dictLookup : List (String × String) → String → Option String
  | [], _ => none
  | p :: rest, q => if p.1 == q then some p.2 else dictLookup rest q

/-- `extract_document_entities` (lines 22-41): fold over the document's
entities in order, each contributing
`entity.type_.replace("/", "_") ↦ (normalized_value.text if present else
mention_text)` via dict update. -/
def extract_document_entities (document : Document) :
    List (String × String) :=
  document.entities.foldl
    (fun document_entities entity =>
      let entity_key := replaceSlash entity.type_
      let entity_value :=
        match entity.normalized_value with
        | some normalized_value => normalized_value.text
        | none => entity.mention_text
      pyDictUpdate document_entities entity_key entity_value) []

/-- The reference fold of claim C4, written from the spec's words: each
entity in document order contributes key = its type with `/` replaced by
`_` and value = the normalized value's text when present, else the raw
mention text; a later colliding key overwrites the earlier binding. -/
def flattenEntitiesSpec (document : Document) : String → Option String :=
  document.entities.foldl
    (fun acc entity =>
      let key := replaceSlash entity.type_
      let value :=
        match entity.normalized_value with
        | some nv => nv.text
        | none => entity.mention_text
      fun q => if q = key then some value else acc q)
    (fun _ => none)

/-- A Python dict update changes exactly the updated key's binding. -/
theorem dictLookup_pyDictUpdate (d : List (String × String)) (k v q : String) :
    dictLookup (pyDictUpdate d k v) q =
      if q = k then some v else dictLookup d q := by
  induction d with
  | nil =>
    by_cases h : q = k
    · simp [pyDictUpdate, dictLookup, h]
    · have h2 : (k == q) = false := by
        simp only [beq_eq_false_iff_ne, ne_eq]
        exact fun hc => h hc.symm
      simp [pyDictUpdate, dictLookup, h, h2]
  | cons p rest ih =>
    by_cases hp : p.1 = k
    · by_cases h : q = k
      · simp [pyDictUpdate, dictLookup, hp, h]
      · have h2 : (k == q) = false := by
          simp only [beq_eq_false_iff_ne, ne_eq]
          exact fun hc => h hc.symm
        have h3 : (p.1 == q) = false := by
          simp only [beq_eq_false_iff_ne, ne_eq]
          exact fun hc => h ((hp.symm.trans hc).symm)
        simp [pyDictUpdate, dictLookup, hp, h, h2, h3]
    · have hpb : (p.1 == k) = false := by
        simp only [beq_eq_false_iff_ne, ne_eq]
        exact hp
      by_cases hq : p.1 = q
      · have h : ¬ q = k := fun hc => hp (hq.trans hc)
        simp [pyDictUpdate, dictLookup, hpb, hq, h]
      · have hqb : (p.1 == q) = false := by
          simp only [beq_eq_false_iff_ne, ne_eq]
          exact hq
        simp [pyDictUpdate, dictLookup, hpb, hqb, ih]

/-- Bridge: looking up in the dict built by the code's fold agrees with the
spec's functional fold, whatever dict the fold starts from. -/
theorem extract_fold_lookup (es : List Entity) (d : List (String × String))
    (q : String) :
    dictLookup
      (es.foldl (fun document_entities entity =>
        let entity_key := replaceSlash entity.type_
        let entity_value :=
          match entity.normalized_value with
          | some normalized_value => normalized_value.text
          | none => entity.mention_text
        pyDictUpdate document_entities entity_key entity_value) d) q =
    es.foldl (fun acc entity =>
      let key := replaceSlash entity.type_
      let value :=
        match entity.normalized_value with
        | some nv => nv.text
        | none => entity.mention_text
      fun r => if r = key then some value else acc r) (dictLookup d) q := by
  induction es generalizing d q with
  | nil => rfl
  | cons e rest ih =>
    simp only [List.foldl_cons]
    rw [ih]
    have hinit : dictLookup (pyDictUpdate d (replaceSlash e.type_)
        (match e.normalized_value with
          | some normalized_value => normalized_value.text
          | none => e.mention_text)) =
        fun r => if r = replaceSlash e.type_ then
            some (match e.normalized_value with
              | some nv => nv.text
              | none => e.mention_text)
          else dictLookup d r :=
      funext (fun r => dictLookup_pyDictUpdate d _ _ r)
    rw [hinit]

/-- **C4**.  `extract_document_entities` equals the reference fold over the
document's entities in order (key = type with every `/` replaced by `_`,
value = normalized value's text when present else the raw mention text,
later colliding keys overwrite earlier ones); a document with zero entities
yields the empty mapping, and entities
`[{type: "a/b", text: "x"}, {type: "a_b", text: "y"}]` yield
`{"a_b": "y"}`. -/
theorem C4_flatten_refines_spec :
    (∀ (document : Document) (q : String),
      dictLookup (extract_document_entities document) q =
        flattenEntitiesSpec document q) ∧
    extract_document_entities ⟨[]⟩ = [] ∧
    extract_document_entities
        ⟨[⟨"a/b", "x", none⟩, ⟨"a_b", "y", none⟩]⟩ = [("a_b", "y")] := by
  refine ⟨?_, rfl, ?_⟩
  · intro document q
    exact extract_fold_lookup document.entities [] q
  · rfl

/-! ## Result Harvester (`get_document_protos_from_gcs`, lines 132-172) -/

/-- `pre` is an initial segment of `s` (over character lists). -/
def charsStartWith : List Char → List Char → Bool
  | _, [] => true
  | [], _ :: _ => false
  | c :: cs, p :: ps => c == p && charsStartWith cs ps

/-- `pat` occurs as a contiguous run inside `s` (over character lists). -/
def charsContain : List Char → List Char → Bool
  | [], pat => pat.isEmpty
  | c :: cs, pat => charsStartWith (c :: cs) pat || charsContain cs pat

/-- Python's substring test `pat in s` (line 149: `".json" in blob.name`). -/
def strContains (s pat : String) : Bool :=
  charsContain s.data pat.data

/-- Python `del d[k]` on the association-list model of a decoded JSON
record (keys unique): removes the entry, or raises `KeyError` when the key
is absent. -/
def dictDel {α : Type} (d : List (String × α)) (k : String) :
    Except Unit (List (String × α)) :=
  if d.any (fun p => p.1 == k) then
    .ok (d.eraseP (fun p => p.1 == k))
  else .error ()

/-- Lines 154-159: the single `try` block
`del document_dict["pages"]; del document_dict["text"]` with
`except KeyError: pass`.  If deleting `"pages"` raises, the deletion of
`"text"` is never executed. -/
def remove_large_fields {α : Type} (d : List (String × α)) :
    List (String × α) :=
  match dictDel d "pages" with
  | .error () => d
  | .ok d1 =>
    match dictDel d1 "text" with
    | .error () => d1
    | .ok d2 => d2

/-- An object under the output prefix: its name and the result of
`json.loads(blob.download_as_text())` — `.error` when the bytes are not
valid JSON (the raised `JSONDecodeError` is caught by no `try` in the
source). -/
structure OutputBlob (α : Type) where
  name : String
  content : Except Unit (List (String × α))

/-- The diagnostics printed by the harvester for skipped records. -/
inductive HarvestDiag where
  | parseFailed (name : String)
  | skippedNonJson (name : String)
deriving DecidableEq, Repr

/-- `get_document_protos_from_gcs` (lines 132-172).  `from_json` models
`documentai.types.Document.from_json` on the cleaned record (an external
parser): `.error` stands for the `ParseError` that the source catches and
turns into a skip-with-diagnostic.  A blob whose content is not valid JSON
makes the whole call raise (`.error`), since `json.loads` is outside the
`try`. -/
def get_document_protos_from_gcs {α : Type}
    (from_json : List (String × α) → Except Unit Document) :
    List (OutputBlob α) → Except String (List Document × List HarvestDiag)
  | [] => .ok ([], [])
  | blob :: rest =>
    if strContains blob.name ".json" then
      match blob.content with
      | .error () => .error ("JSONDecodeError in " ++ blob.name)
      | .ok document_dict =>
        match from_json (remove_large_fields document_dict) with
        | .error () =>
          match get_document_protos_from_gcs from_json rest with
          | .error err => .error err
          | .ok (docs, diags) =>
            .ok (docs, .parseFailed blob.name :: diags)
        | .ok document_proto =>
          match get_document_protos_from_gcs from_json rest with
          | .error err => .error err
          | .ok (docs, diags) => .ok (document_proto :: docs, diags)
    else
      match get_document_protos_from_gcs from_json rest with
      | .error err => .error err
      | .ok (docs, diags) => .ok (docs, .skippedNonJson blob.name :: diags)

/-- **C9** (code evaluated at the failing input).  A record carrying a
`"text"` field but no `"pages"` field keeps its `"text"` field: the
`KeyError` from `del document_dict["pages"]` jumps to `pass`, skipping
`del document_dict["text"]`.  When `"pages"` is present both fields are
removed, as the claim expects. -/
theorem C9_text_field_survives :
    remove_large_fields [("text", "big"), ("entities", "e")] =
      [("text", "big"), ("entities", "e")] ∧
    remove_large_fields [("pages", "p"), ("text", "big"), ("entities", "e")] =
      [("entities", "e")] := by
  exact ⟨rfl, rfl⟩

/-- **C3** (counterexample).  A listing with one well-formed record and one
record whose bytes are not valid JSON: `json.loads` raises outside every
`try`/`except`, so the harvest call aborts instead of returning the one
parsed document plus a diagnostic — refuting "a single malformed record
never raises an exception that aborts the whole harvest call". -/
theorem C3_counterexample :
    get_document_protos_from_gcs (α := String) (fun _ => .ok ⟨[]⟩)
        [⟨"good.json", .ok [("entities", "e")]⟩, ⟨"bad.json", .error ()⟩] =
      .error ("JSONDecodeError in bad.json") := by
  rfl

/-- **C3** (amended).  For every output listing containing one record that
decodes and parses fully and one record that decodes as JSON but fails
document-schema parsing, harvesting returns exactly the one parsed
document and a parse-failure diagnostic for the other (in either listing
order) without aborting; a record whose bytes are not valid JSON, however,
raises and aborts the whole harvest call. -/
theorem C3_harvest_skips_parse_failures {α : Type}
    (from_json : List (String × α) → Except Unit Document)
    (goodName badName : String) (goodDict badDict : List (String × α))
    (doc : Document)
    (hg : strContains goodName ".json" = true)
    (hb : strContains badName ".json" = true)
    (hok : from_json (remove_large_fields goodDict) = .ok doc)
    (hbad : from_json (remove_large_fields badDict) = .error ()) :
    get_document_protos_from_gcs from_json
        [⟨goodName, .ok goodDict⟩, ⟨badName, .ok badDict⟩] =
      .ok ([doc], [.parseFailed badName]) ∧
    get_document_protos_from_gcs from_json
        [⟨badName, .ok badDict⟩, ⟨goodName, .ok goodDict⟩] =
      .ok ([doc], [.parseFailed badName]) := by
  constructor
  · simp [get_document_protos_from_gcs, hg, hb, hok, hbad]
  · simp [get_document_protos_from_gcs, hg, hb, hok, hbad]

/-- **C3** (witness): a concrete schema parser that rejects records with a
`"corrupt"` field; the listing with one well-formed and one
schema-corrupt record harvests to one document and one diagnostic. -/
theorem C3_harvest_skips_parse_failures_witness :
    get_document_protos_from_gcs (α := String)
        (fun d => if d.any (fun p => p.1 == "corrupt") then .error ()
          else .ok ⟨[]⟩)
        [⟨"good.json", .ok [("entities", "e")]⟩,
         ⟨"bad.json", .ok [("corrupt", "c")]⟩] =
      .ok ([⟨[]⟩], [.parseFailed "bad.json"]) ∧
    get_document_protos_from_gcs (α := String)
        (fun d => if d.any (fun p => p.1 == "corrupt") then .error ()
          else .ok ⟨[]⟩)
        [⟨"bad.json", .ok [("corrupt", "c")]⟩,
         ⟨"good.json", .ok [("entities", "e")]⟩] =
      .ok ([⟨[]⟩], [.parseFailed "bad.json"]) :=
  C3_harvest_skips_parse_failures
    (fun d => if d.any (fun p => p.1 == "corrupt") then .error ()
      else .ok ⟨[]⟩)
    "good.json" "bad.json" [("entities", "e")] [("corrupt", "c")] ⟨[]⟩
    rfl rfl rfl rfl

/-! ## Batch Submitter (`_batch_process_documents`, lines 83-129) -/

/-- Outcome of one `docai_client.batch_process_documents(request)` call for
a given submission index: either the submission itself raises, or it
returns an operation whose `operation.result(timeout=TIMEOUT)` either
completes in time (`.ok`) or raises (timeout / job failure). -/
inductive SubmitOutcome where
  | submitRaises (err : String)
  | submitted (opName : String) (wait : Except String Unit)

/-- The `for i, batch in enumerate(batches)` loop of
`_batch_process_documents` (lines 109-127): submit one job per batch in
order; append the operation name; block on `operation.result` before the
next batch.  Returns the trace of submitted `(index, batch)` jobs (in
submission order, including the attempt that raised, if any) and either
the operation names in submission order or the first propagated error. -/
def batch_process_loop (docai : Nat → SubmitOutcome) :
    List (List GcsDocument) → Nat →
    List (Nat × List GcsDocument) × Except String (List String)
  | [], _ => ([], .ok [])
  | batch :: rest, i =>
    match docai i with
    | .submitRaises err => ([(i, batch)], .error err)
    | .submitted opName wait =>
      match wait with
      | .error err => ([(i, batch)], .error err)
      | .ok () =>
        let step := batch_process_loop docai rest (i + 1)
        ((i, batch) :: step.1,
          match step.2 with
          | .ok ids => .ok (opName :: ids)
          | .error err => .error err)

/-- `_batch_process_documents` (lines 83-129): build the batches via
`create_batches` (its `ValueError` propagates) and run the submission
loop from index 0. -/
def batch_process_documents (docai : Nat → SubmitOutcome)
    (accepted : List String) (batchMaxFiles : Nat) (input_bucket : String)
    (blob_list : List Blob) (batch_size : Nat) :
    List (Nat × List GcsDocument) × Except String (List String) :=
  match create_batches accepted batchMaxFiles input_bucket blob_list
      batch_size with
  | .error err => ([], .error err)
  | .ok batches => batch_process_loop docai batches 0

/-- When every submission from index `s` on succeeds and completes in
time, the loop submits each batch once, in order, and collects the
operation names in submission order. -/
theorem batch_process_loop_all_ok (docai : Nat → SubmitOutcome)
    (names : Nat → String) (batches : List (List GcsDocument)) :
    ∀ s, (∀ t, t < batches.length → docai (s + t) =
        .submitted (names (s + t)) (.ok ())) →
      batch_process_loop docai batches s =
        (batches.enumFrom s, .ok ((List.range' s batches.length).map names)) := by
  induction batches with
  | nil => intro s _; rfl
  | cons batch rest ih =>
    intro s h
    have h0 : docai s = .submitted (names s) (.ok ()) := by
      simpa using h 0 (by simp)
    have hrest : ∀ t, t < rest.length →
        docai (s + 1 + t) = .submitted (names (s + 1 + t)) (.ok ()) := by
      intro t ht
      have := h (t + 1) (by simpa using Nat.succ_lt_succ ht)
      simpa [Nat.add_assoc, Nat.add_comm 1 t] using this
    simp only [batch_process_loop, h0, ih (s + 1) hrest, List.enumFrom,
      List.length_cons, List.range'_succ, List.map_cons]

/-- When the first failure (submission raising, or wait timing out /
failing) happens at offset `j`, the loop stops with that error having
submitted exactly the first `j + 1` batches. -/
theorem batch_process_loop_fails_at (docai : Nat → SubmitOutcome)
    (names : Nat → String) :
    ∀ (batches : List (List GcsDocument)) (s j : Nat) (err : String),
      j < batches.length →
      (∀ t, t < j → docai (s + t) = .submitted (names (s + t)) (.ok ())) →
      (docai (s + j) = .submitRaises err ∨
        ∃ nm, docai (s + j) = .submitted nm (.error err)) →
      batch_process_loop docai batches s =
        ((batches.take (j + 1)).enumFrom s, .error err) := by
  intro batches
  induction batches with
  | nil => intro s j err hj _ _; simp at hj
  | cons batch rest ih =>
    intro s j err hj hsome hfail
    cases j with
    | zero =>
      rcases hfail with hf | ⟨nm, hf⟩
      · simp only [Nat.add_zero] at hf
        simp [batch_process_loop, hf, List.enumFrom]
      · simp only [Nat.add_zero] at hf
        simp [batch_process_loop, hf, List.enumFrom]
    | succ t =>
      have h0 : docai s = .submitted (names s) (.ok ()) := by
        simpa using hsome 0 (by simp)
      have hsome2 : ∀ u, u < t →
          docai (s + 1 + u) = .submitted (names (s + 1 + u)) (.ok ()) := by
        intro u hu
        have := hsome (u + 1) (by omega)
        simpa [Nat.add_assoc, Nat.add_comm 1 u] using this
      have hfail2 : docai (s + 1 + t) = .submitRaises err ∨
          ∃ nm, docai (s + 1 + t) = .submitted nm (.error err) := by
        have harith : s + 1 + t = s + (t + 1) := by omega
        rw [harith]
        exact hfail
      have hj2 : t < rest.length := by simpa using Nat.lt_of_succ_lt_succ hj
      simp only [batch_process_loop, h0, ih (s + 1) t err hj2 hsome2 hfail2,
        List.take_succ_cons, List.enumFrom]

/-- **C7**.  Over any batch sequence: when every submission succeeds and
every job completes within the timeout, the submitter submits exactly one
job per batch in order and returns the operation identifiers in
submission order; and when the first submission failure or wait
timeout/failure occurs at batch `j`, that error propagates and no batch
after `j` is submitted (the trace is exactly the first `j + 1` batches). -/
theorem C7_submitter (docai : Nat → SubmitOutcome) (names : Nat → String)
    (batches : List (List GcsDocument)) :
    ((∀ t, t < batches.length → docai t = .submitted (names t) (.ok ())) →
      batch_process_loop docai batches 0 =
        (batches.enum, .ok ((List.range batches.length).map names))) ∧
    (∀ j err, j < batches.length →
      (∀ t, t < j → docai t = .submitted (names t) (.ok ())) →
      (docai j = .submitRaises err ∨
        ∃ nm, docai j = .submitted nm (.error err)) →
      batch_process_loop docai batches 0 =
        ((batches.take (j + 1)).enum, .error err)) := by
  constructor
  · intro h
    have := batch_process_loop_all_ok docai names batches 0
      (by intro t ht; simpa using h t ht)
    simpa [List.enum, List.range_eq_range'] using this
  · intro j err hj hsome hfail
    have := batch_process_loop_fails_at docai names batches 0 j err hj
      (by intro t ht; simpa using hsome t ht)
      (by simpa using hfail)
    simpa [List.enum] using this

/-- **C7** (witness): two batches with an always-succeeding service submit
both in order; three batches with a service whose second submission raises
stop after two submissions with the propagated error. -/
theorem C7_submitter_witness :
    (batch_process_loop (fun _ => SubmitOutcome.submitted "op" (.ok ()))
        [[mkGcsDocument "b" ⟨"x", "application/pdf"⟩], []] 0 =
      ([[mkGcsDocument "b" ⟨"x", "application/pdf"⟩], []].enum,
        .ok ((List.range
          ([[mkGcsDocument "b" ⟨"x", "application/pdf"⟩], []] :
            List (List GcsDocument)).length).map (fun _ => "op")))) ∧
    (batch_process_loop
        (fun i => if i = 0 then SubmitOutcome.submitted "op" (.ok ())
          else .submitRaises "boom")
        [[mkGcsDocument "b" ⟨"x", "application/pdf"⟩], [], []] 0 =
      (([[mkGcsDocument "b" ⟨"x", "application/pdf"⟩], [], []].take
          (1 + 1)).enum, .error "boom")) :=
  ⟨(C7_submitter (fun _ => SubmitOutcome.submitted "op" (.ok ()))
      (fun _ => "op") _).1 (fun _ _ => rfl),
   (C7_submitter
      (fun i => if i = 0 then SubmitOutcome.submitted "op" (.ok ())
        else .submitRaises "boom") (fun _ => "op") _).2 1 "boom"
      (by simp)
      (fun t ht => by
        have h0 : t = 0 := by omega
        subst h0
        rfl)
      (Or.inl rfl)⟩

/-- **C10**.  When no object in the listing has an accepted content type
(including the empty listing), the pipeline still submits exactly one
batch job with an empty input document list and returns exactly one
operation identifier. -/
theorem C10_empty_filter_single_job (docai : Nat → SubmitOutcome)
    (accepted : List String) (batchMaxFiles : Nat) (input_bucket : String)
    (blob_list : List Blob) (batch_size : Nat) (opName : String)
    (hmax : batch_size ≤ batchMaxFiles)
    (hnone : ∀ blob ∈ blob_list, blob.contentType ∉ accepted)
    (h0 : docai 0 = .submitted opName (.ok ())) :
    batch_process_documents docai accepted batchMaxFiles input_bucket
        blob_list batch_size = ([(0, [])], .ok [opName]) := by
  have hacc : acceptedBlobs accepted blob_list = [] := by
    refine List.filter_eq_nil_iff.mpr ?_
    intro blob hb
    simpa using hnone blob hb
  unfold batch_process_documents create_batches
  rw [if_neg (Nat.not_lt.mpr hmax), hacc]
  simp [batch_process_loop, h0, create_batches_go]

/-- **C10** (witness): one object of unaccepted type, ceiling 50, batch
size 50: one job with the empty document list, one operation identifier. -/
theorem C10_empty_filter_single_job_witness :
    batch_process_documents (fun _ => SubmitOutcome.submitted "op" (.ok ()))
        ["application/pdf"] 50 "b" [⟨"a", "text/csv"⟩] 50 =
      ([(0, [])], .ok ["op"]) :=
  C10_empty_filter_single_job _ ["application/pdf"] 50 "b"
    [⟨"a", "text/csv"⟩] 50 "op" (by decide) (by decide) rfl

/-! ## Cleanup/Archiver (`cleanup_gcs`, lines 175-212) -/

/-- A storage client call made by `cleanup_gcs`, in execution order. -/
inductive StorageOp where
  | copyBlob (src_bucket : String) (name : String) (dst_bucket : String)
  | deleteBlob (bucket : String) (name : String)
deriving DecidableEq, Repr

/-- The copy loop (lines 203-208): copy each input blob to the archive
bucket, appending it to `delete_queue` only after the copy call returns;
a failing `copy_blob` raises and aborts (there is no `try`/`except` in the
source).  Returns the trace of attempted copies and, on success, the
queued `(bucket, name)` pairs. -/
def cleanup_copy_loop (input_bucket archive_bucket : String)
    (copyFail : String → Bool) :
    List String → List StorageOp × Except String (List (String × String))
  | [] => ([], .ok [])
  | name :: rest =>
    if copyFail name then
      ([.copyBlob input_bucket name archive_bucket],
        .error ("copy failed: " ++ name))
    else
      let step := cleanup_copy_loop input_bucket archive_bucket copyFail rest
      (.copyBlob input_bucket name archive_bucket :: step.1,
        step.2.map (fun queue => (input_bucket, name) :: queue))

/-- The delete loop (lines 210-212): delete every queued blob from its own
bucket; a failing delete (e.g. `NotFound` for an object already deleted)
raises and aborts the remaining deletions. -/
def cleanup_delete_loop (deleteFail : String → String → Bool) :
    List (String × String) → List StorageOp × Except String Unit
  | [] => ([], .ok ())
  | (bucket, name) :: rest =>
    if deleteFail bucket name then
      ([.deleteBlob bucket name], .error ("delete failed: " ++ name))
    else
      let step := cleanup_delete_loop deleteFail rest
      (.deleteBlob bucket name :: step.1, step.2)

/-- `cleanup_gcs` (lines 175-212): queue every intermediate output blob
for deletion, copy each input blob to the archive bucket (queueing it
after its copy), then delete everything queued.  `output_listing` and
`input_listing` are the two `list_blobs` results; `copyFail` and
`deleteFail` model which storage calls raise.  Returns the trace of
storage calls attempted, in order, and the overall outcome. -/
def cleanup_gcs (input_bucket output_bucket archive_bucket : String)
    (output_listing input_listing : List String)
    (copyFail : String → Bool) (deleteFail : String → String → Bool) :
    List StorageOp × Except String Unit :=
  let delete_queue0 := output_listing.map (fun name => (output_bucket, name))
  let cstep := cleanup_copy_loop input_bucket archive_bucket copyFail
    input_listing
  match cstep.2 with
  | .error err => (cstep.1, .error err)
  | .ok queued =>
    let dstep := cleanup_delete_loop deleteFail (delete_queue0 ++ queued)
    (cstep.1 ++ dstep.1, dstep.2)

/-- Every operation in the copy loop's trace is a copy of an input blob to
the archive. -/
theorem cleanup_copy_loop_trace_ops (input_bucket archive_bucket : String)
    (copyFail : String → Bool) (input_listing : List String) :
    ∀ op ∈ (cleanup_copy_loop input_bucket archive_bucket copyFail
        input_listing).1,
      ∃ n, op = .copyBlob input_bucket n archive_bucket := by
  induction input_listing with
  | nil => intro op h; simp [cleanup_copy_loop] at h
  | cons name rest ih =>
    intro op h
    by_cases hf : copyFail name
    · simp only [cleanup_copy_loop, if_pos hf, List.mem_singleton] at h
      exact ⟨name, h⟩
    · simp only [cleanup_copy_loop, if_neg hf, List.mem_cons] at h
      rcases h with h | h
      · exact ⟨name, h⟩
      · exact ih op h

/-- On copy-loop success, every queued pair is an input-bucket object whose
copy succeeded and appears in the trace. -/
theorem cleanup_copy_loop_queued (input_bucket archive_bucket : String)
    (copyFail : String → Bool) (input_listing : List String)
    (queued : List (String × String))
    (hok : (cleanup_copy_loop input_bucket archive_bucket copyFail
        input_listing).2 = .ok queued) :
    ∀ p ∈ queued, p.1 = input_bucket ∧ copyFail p.2 = false ∧
      .copyBlob input_bucket p.2 archive_bucket ∈
        (cleanup_copy_loop input_bucket archive_bucket copyFail
          input_listing).1 := by
  induction input_listing generalizing queued with
  | nil =>
    simp only [cleanup_copy_loop] at hok
    cases hok
    intro p hp
    simp at hp
  | cons name rest ih =>
    by_cases hf : copyFail name
    · simp [cleanup_copy_loop, if_pos hf] at hok
    · simp only [cleanup_copy_loop, if_neg hf] at hok ⊢
      cases hrec : (cleanup_copy_loop input_bucket archive_bucket copyFail
          rest).2 with
      | error err => rw [hrec] at hok; simp [Except.map] at hok
      | ok queued2 =>
        rw [hrec] at hok
        simp only [Except.map] at hok
        cases hok
        intro p hp
        rcases List.mem_cons.mp hp with hp | hp
        · subst hp
          exact ⟨rfl, by simpa using hf, by simp⟩
        · obtain ⟨h1, h2, h3⟩ := ih queued2 hrec p hp
          exact ⟨h1, h2, by simp [h3]⟩

/-- Every operation in the delete loop's trace is a delete of a queued
pair. -/
theorem cleanup_delete_loop_trace_ops (deleteFail : String → String → Bool)
    (queue : List (String × String)) :
    ∀ op ∈ (cleanup_delete_loop deleteFail queue).1,
      ∃ b n, op = .deleteBlob b n ∧ (b, n) ∈ queue := by
  induction queue with
  | nil => intro op h; simp [cleanup_delete_loop] at h
  | cons p rest ih =>
    intro op h
    obtain ⟨bucket, name⟩ := p
    by_cases hf : deleteFail bucket name
    · simp only [cleanup_delete_loop, if_pos hf, List.mem_singleton] at h
      exact ⟨bucket, name, h, by simp⟩
    · simp only [cleanup_delete_loop, if_neg hf, List.mem_cons] at h
      rcases h with h | h
      · exact ⟨bucket, name, h, by simp⟩
      · obtain ⟨b, n, hop, hmem⟩ := ih op h
        exact ⟨b, n, hop, by simp [hmem]⟩

/-- **C6**.  In every cleanup execution (with distinct input and output
buckets), the attempted-operation trace is a block of copies followed by a
block of deletes — every delete happens after all copies — and any delete
of an input-bucket object is preceded by a successful copy of that object
to the archive bucket (the object is queued only after its copy call
succeeds). -/
theorem C6_copy_before_delete (input_bucket output_bucket archive_bucket :
      String)
    (output_listing input_listing : List String)
    (copyFail : String → Bool) (deleteFail : String → String → Bool)
    (hbuckets : input_bucket ≠ output_bucket) :
    ∃ tc td,
      (cleanup_gcs input_bucket output_bucket archive_bucket output_listing
        input_listing copyFail deleteFail).1 = tc ++ td ∧
      (∀ op ∈ tc, ∃ n, op = .copyBlob input_bucket n archive_bucket) ∧
      (∀ op ∈ td, ∃ b n, op = .deleteBlob b n) ∧
      (∀ n, .deleteBlob input_bucket n ∈ td →
        copyFail n = false ∧
        .copyBlob input_bucket n archive_bucket ∈ tc) := by
  cases hres : (cleanup_copy_loop input_bucket archive_bucket copyFail
      input_listing).2 with
  | error err =>
    refine ⟨(cleanup_copy_loop input_bucket archive_bucket copyFail
      input_listing).1, [], ?_, ?_, by simp, by simp⟩
    · simp only [cleanup_gcs, hres, List.append_nil]
    · exact cleanup_copy_loop_trace_ops input_bucket archive_bucket copyFail
        input_listing
  | ok queued =>
    refine ⟨(cleanup_copy_loop input_bucket archive_bucket copyFail
        input_listing).1,
      (cleanup_delete_loop deleteFail
        (output_listing.map (fun name => (output_bucket, name)) ++
          queued)).1, ?_, ?_, ?_, ?_⟩
    · simp only [cleanup_gcs, hres]
    · exact cleanup_copy_loop_trace_ops input_bucket archive_bucket copyFail
        input_listing
    · intro op hop
      obtain ⟨b, n, hop2, -⟩ :=
        cleanup_delete_loop_trace_ops deleteFail _ op hop
      exact ⟨b, n, hop2⟩
    · intro n hn
      obtain ⟨b, n2, heq, hmem⟩ :=
        cleanup_delete_loop_trace_ops deleteFail _ _ hn
      injection heq with hb hn2
      rw [← hb, ← hn2] at hmem
      rcases List.mem_append.mp hmem with hm | hm
      · exfalso
        obtain ⟨x, -, hxe⟩ := List.mem_map.mp hm
        injection hxe with hxb hxn
        exact hbuckets hxb.symm
      · obtain ⟨-, h2, h3⟩ :=
          cleanup_copy_loop_queued input_bucket archive_bucket copyFail
            input_listing queued hres _ hm
        exact ⟨h2, h3⟩

/-- **C6** (witness): one intermediate output object and two inputs, all
operations succeeding: the trace splits into the copy block followed by
the delete block with each input's copy preceding its delete. -/
theorem C6_copy_before_delete_witness :
    ∃ tc td,
      (cleanup_gcs "in" "out" "arch" ["o1"] ["a", "b"]
        (fun _ => false) (fun _ _ => false)).1 = tc ++ td ∧
      (∀ op ∈ tc, ∃ n, op = .copyBlob "in" n "arch") ∧
      (∀ op ∈ td, ∃ b n, op = .deleteBlob b n) ∧
      (∀ n, .deleteBlob "in" n ∈ td →
        (fun _ => false) n = false ∧ .copyBlob "in" n "arch" ∈ tc) :=
  C6_copy_before_delete "in" "out" "arch" ["o1"] ["a", "b"]
    (fun _ => false) (fun _ _ => false) (by decide)

/-- **C5** (counterexample).  `cleanup_gcs` has no `try`/`except`: a copy
failure for input `"b"` aborts the run with the propagated error — input
`"c"` is never attempted and nothing is deleted — and a delete failure
(e.g. `NotFound` for an already-deleted object `"x"`) likewise aborts
before `"y"` is attempted, refuting per-object recovery and the claimed
tolerance of already-deleted objects. -/
theorem C5_counterexample :
    (cleanup_gcs "in" "out" "arch" [] ["a", "b", "c"]
        (fun n => n == "b") (fun _ _ => false) =
      ([.copyBlob "in" "a" "arch", .copyBlob "in" "b" "arch"],
        .error "copy failed: b") ∧
      .copyBlob "in" "c" "arch" ∉
        (cleanup_gcs "in" "out" "arch" [] ["a", "b", "c"]
          (fun n => n == "b") (fun _ _ => false)).1) ∧
    (cleanup_gcs "in" "out" "arch" ["x", "y"] []
        (fun _ => false) (fun _ n => n == "x") =
      ([.deleteBlob "out" "x"], .error "delete failed: x") ∧
      .deleteBlob "out" "y" ∉
        (cleanup_gcs "in" "out" "arch" ["x", "y"] []
          (fun _ => false) (fun _ n => n == "x")).1) := by
  exact ⟨⟨rfl, by decide⟩, ⟨rfl, by decide⟩⟩

/-- Prefix behaviour of the copy loop up to the first failing copy. -/
theorem cleanup_copy_loop_abort (input_bucket archive_bucket : String)
    (copyFail : String → Bool) (pre : List String) (bad : String)
    (post : List String)
    (hpre : ∀ m ∈ pre, copyFail m = false) (hbad : copyFail bad = true) :
    cleanup_copy_loop input_bucket archive_bucket copyFail
        (pre ++ bad :: post) =
      (pre.map (fun m => .copyBlob input_bucket m archive_bucket) ++
        [.copyBlob input_bucket bad archive_bucket],
        .error ("copy failed: " ++ bad)) := by
  induction pre with
  | nil => simp [cleanup_copy_loop, hbad]
  | cons m rest ih =>
    have hm : copyFail m = false := hpre m (by simp)
    have hrest : ∀ x ∈ rest, copyFail x = false :=
      fun x hx => hpre x (by simp [hx])
    simp [cleanup_copy_loop, hm, ih hrest, Except.map]

/-- **C5** (amended).  Cleanup is not recovered per-object: the first
failing copy aborts the whole run with the propagated error — the trace
stops at that copy, later inputs are never attempted and nothing is
deleted (a failing delete likewise aborts, so an already-deleted object is
fatal rather than tolerated).  Re-running cleanup after a fully successful
run lists nothing and performs no operations and no error; after a partial
failure the inputs remain copyable again, since no input is deleted before
the failure point. -/
theorem C5_cleanup_failure_aborts (input_bucket output_bucket
      archive_bucket : String)
    (output_listing pre post : List String) (bad : String)
    (copyFail : String → Bool) (deleteFail : String → String → Bool)
    (hpre : ∀ m ∈ pre, copyFail m = false) (hbad : copyFail bad = true) :
    cleanup_gcs input_bucket output_bucket archive_bucket output_listing
        (pre ++ bad :: post) copyFail deleteFail =
      (pre.map (fun m => .copyBlob input_bucket m archive_bucket) ++
        [.copyBlob input_bucket bad archive_bucket],
        .error ("copy failed: " ++ bad)) ∧
    cleanup_gcs input_bucket output_bucket archive_bucket [] []
        copyFail deleteFail = ([], .ok ()) := by
  constructor
  · have h := cleanup_copy_loop_abort input_bucket archive_bucket copyFail
      pre bad post hpre hbad
    simp only [cleanup_gcs, h]
  · rfl

/-- **C5** (witness): copy of `"b"` fails after `"a"` succeeded: the run
aborts with exactly the two attempted copies in the trace; cleanup of the
empty state is a no-op. -/
theorem C5_cleanup_failure_aborts_witness :
    cleanup_gcs "in" "out" "arch" [] (["a"] ++ "b" :: ["c"])
        (fun n => n == "b") (fun _ _ => false) =
      (["a"].map (fun m => .copyBlob "in" m "arch") ++
        [.copyBlob "in" "b" "arch"], .error ("copy failed: " ++ "b")) ∧
    cleanup_gcs "in" "out" "arch" [] [] (fun n => n == "b")
        (fun _ _ => false) = ([], .ok ()) :=
  C5_cleanup_failure_aborts "in" "out" "arch" [] ["a"] ["c"] "b"
    (fun n => n == "b") (fun _ _ => false) (by decide) (by decide)
